import Mathlib

/-!
Verification of `src/server/scripts/enumerate-metasploit-modules.py`.

Strings are modelled as lists of characters (`Str`); the Python string
operations used by the script (`strip`, `split`, `lower`, `in`,
`startswith`, `replace`, slicing) are embedded as executable functions on
`Str`.  Each Python function of the script is translated into a Lean
function of the same name.  The msfconsole subprocess is an external
effect; it is modelled by an explicit outcome (`ExecOutcome`) or, at the
driver level, by an oracle mapping command strings to outcomes.
-/

/-- Python strings, modelled as lists of characters. -/
abbrev Str := List Char

/-- The whitespace characters removed by Python `str.strip()` and used as
separators by `str.split()` with no argument. -/
def pyIsSpace (c : Char) : Bool :=
  c = ' ' || c = '\t' || c = '\n' || c = '\r' || c = '\x0b' || c = '\x0c'

/-- Python `s.strip()`: remove whitespace from both ends. -/
def pyStrip (s : Str) : Str :=
  ((s.dropWhile pyIsSpace).reverse.dropWhile pyIsSpace).reverse

/-- Python `pat in s`: substring containment. -/
def containsSub (s pat : Str) : Bool :=
  match s with
  | [] => pat.isEmpty
  | c :: rest => List.isPrefixOf pat (c :: rest) || containsSub rest pat

/-- Python `s.lower()` (the script only lowercases ASCII module paths). -/
def pyLower (s : Str) : Str := s.map Char.toLower

/-- Python `s.split(sep)` for a one-character separator: keeps empty
segments, so the result is always non-empty. -/
def splitOnC (sep : Char) : Str → List Str
  | [] => [[]]
  | c :: rest =>
    if c = sep then [] :: splitOnC sep rest
    else
      match splitOnC sep rest with
      | [] => [[c]]
      | h :: t => (c :: h) :: t

/-- Helper for `pySplitWs`: accumulates the current (reversed) word. -/
def wsSplitAux : Str → Str → List Str
  | [], acc => if acc.isEmpty then [] else [acc.reverse]
  | c :: rest, acc =>
    if pyIsSpace c then
      if acc.isEmpty then wsSplitAux rest [] else acc.reverse :: wsSplitAux rest []
    else wsSplitAux rest (c :: acc)

/-- Python `s.split()` with no argument: split on runs of whitespace,
discarding empty pieces. -/
def pySplitWs (s : Str) : List Str := wsSplitAux s []

/-- Python `s.replace(pat, '')` for a non-empty `pat`: delete every
(left-to-right, non-overlapping) occurrence of `pat`. -/
def replaceAll (s pat : Str) : Str :=
  match s with
  | [] => []
  | c :: rest =>
    if h : pat ≠ [] ∧ List.isPrefixOf pat (c :: rest) then
      replaceAll ((c :: rest).drop pat.length) pat
    else
      c :: replaceAll rest pat
termination_by s.length
decreasing_by
  · rcases pat with _ | ⟨p, ps⟩
    · exact absurd rfl h.1
    · simp [List.length_drop]
      omega
  · simp

/-! ### Fixed vocabularies (lines 17-32 of the script) -/

/-- `TOP_TECHNOLOGIES`: technology/platform keywords for exploit/payload
filtering. -/
def TOP_TECHNOLOGIES : List Str :=
  List.map String.toList
    ["windows", "linux", "unix", "macos", "osx",
     "apache", "iis", "php", "java", "python",
     "ssh", "smb", "rdp", "http", "https"]

/-- `TOP_SERVICES`: service/protocol keywords for auxiliary filtering. -/
def TOP_SERVICES : List Str :=
  List.map String.toList
    ["http", "https", "smb", "ssh", "ftp", "telnet", "smtp", "pop3", "imap",
     "dns", "snmp", "ldap", "mysql", "mssql", "postgres", "oracle", "mongodb",
     "redis", "memcached", "vnc", "rdp", "nfs", "rsync", "rpc", "tftp",
     "sip", "rtsp", "socks", "proxy", "ssl", "tls", "ipsec", "vpn",
     "docker", "kubernetes", "jenkins", "gitlab", "jboss", "tomcat", "weblogic",
     "elasticsearch", "kibana", "splunk", "grafana", "prometheus", "netbios",
     "kerberos", "winrm", "wmi", "powershell"]

/-! ### `run_msfconsole_command` (lines 35-51) -/

/-- Outcome of one `subprocess.run` invocation of msfconsole. -/
inductive ExecOutcome where
  /-- The process completed; its captured standard output. -/
  | success (stdout : Str)
  /-- `subprocess.TimeoutExpired` was raised (300-second limit). -/
  | timeout
  /-- Any other exception during execution (tool missing, I/O error). -/
  | failure
deriving DecidableEq

/-- `run_msfconsole_command`: return captured stdout, or the empty string
on timeout or on any other execution failure. -/
def run_msfconsole_command (outcome : ExecOutcome) : Str :=
  match outcome with
  | .success stdout => stdout
  | .timeout => []
  | .failure => []

/-! ### `parse_module_list` (lines 54-76) -/

/-- The literal `'Matching Modules'`. -/
def kwMatching : Str := String.toList ("Matching Modules")

/-- The literal `'Name'` tested by the header filter. -/
def kwNameHdr : Str := String.toList ("Name")

/-- The literal `'----'` tested by the separator filter. -/
def kwDashes : Str := String.toList ("----")

/-- One iteration of the `parse_module_list` loop up to the extraction of
the first column: `none` when the line is skipped, otherwise the first
whitespace-delimited token, provided it contains a `/`. -/
def parseLineToken (rawLine : Str) : Option Str :=
  let line := pyStrip rawLine
  if line.isEmpty then none
  else if List.isPrefixOf [ '=' ] line || List.isPrefixOf [ '[' ] line then none
  else if containsSub line kwMatching || containsSub line kwNameHdr
       || containsSub line kwDashes then none
  else
    match pySplitWs line with
    | [] => none
    | p0 :: _ => if p0.contains '/' then some p0 else none

/-- The prefix-stripping step of `parse_module_list`: remove a leading
`'<module_type>/'` when present (`module_path[len(module_type)+1:]`). -/
def stripTypeTag (module_type p : Str) : Str :=
  if List.isPrefixOf (module_type ++ [ '/' ]) p then p.drop (module_type.length + 1)
  else p

/-- `parse_module_list(output, module_type)`: split into lines, skip
headers/banners, take the first column of each surviving line when it
contains a `/`, and strip the redundant module-type prefix. -/
def parse_module_list (output module_type : Str) : List Str :=
  ((splitOnC '\n' output).filterMap parseLineToken).map (stripTypeTag module_type)

/-! ### `get_module_info` (lines 79-127) -/

/-- The record built by `get_module_info` (the `info` dict). -/
structure ModuleInfo where
  path : Str
  name : Str
  description : Str
  rank : Str
  platform : List Str
  targets : List Str
  options : List Str
  payloads : List Str
deriving DecidableEq

/-- The `info` dict as initialised at lines 84-93: all fields empty
except the path. -/
def initInfo (module_path : Str) : ModuleInfo :=
  { path := module_path, name := [], description := [], rank := [],
    platform := [], targets := [], options := [], payloads := [] }

/-- The literal `'Name:'`. -/
def kwNameC : Str := String.toList ("Name:")

/-- The literal `'Description:'`. -/
def kwDescC : Str := String.toList ("Description:")

/-- The literal `'Module'` (description capture stops at such lines). -/
def kwModuleC : Str := String.toList ("Module")

/-- The literal `'Rank:'`. -/
def kwRankC : Str := String.toList ("Rank:")

/-- The literal `'Platform:'`. -/
def kwPlatC : Str := String.toList ("Platform:")

/-- The literal `'Available targets:'`. -/
def kwTargC : Str := String.toList ("Available targets:")

/-- Word characters of the regex `\w` (ASCII part). -/
def isWordChar (c : Char) : Bool :=
  ('a' ≤ c && c ≤ 'z') || ('A' ≤ c && c ≤ 'Z') || ('0' ≤ c && c ≤ '9') || c = '_'

/-- Whitespace of the regex `\s` (ASCII part). -/
def isRegexSpace (c : Char) : Bool := pyIsSpace c

/-- Attempt to match the regex `Rank:\s+(\w+)` anchored at the start of
`s`; returns the captured group. -/
def tryRankAt (s : Str) : Option Str :=
  if List.isPrefixOf kwRankC s then
    let after := s.drop kwRankC.length
    if (after.takeWhile isRegexSpace).isEmpty then none
    else
      let w := (after.dropWhile isRegexSpace).takeWhile isWordChar
      if w.isEmpty then none else some w
  else none

/-- `re.search(r'Rank:\s+(\w+)', line)`: first match anywhere in the
line, returning the captured group. -/
def rankSearch : Str → Option Str
  | [] => none
  | c :: rest =>
    match tryRankAt (c :: rest) with
    | some w => some w
    | none => rankSearch rest

/-- The pieces appended to `info['platform']` by lines 122-125: the
segment of the line between the first and second `:`, stripped, split on
commas, each piece stripped, empty pieces dropped.  (`line.split(':')[1]`
stops at the second colon.) -/
def platPieces (line : Str) : List Str :=
  match splitOnC ':' line with
  | _ :: p1 :: _ =>
    ((splitOnC ',' (pyStrip p1)).map pyStrip).filter (fun p => !p.isEmpty)
  | _ => []

/-- One iteration of the parsing loop of `get_module_info` (lines
99-125).  The state is `(current_section == 'description', info)`. -/
def detailStep (st : Bool × ModuleInfo) (rawLine : Str) : Bool × ModuleInfo :=
  let line := pyStrip rawLine
  let cur := st.1
  let info := st.2
  if List.isPrefixOf kwNameC line then
    (cur, { info with name := pyStrip (replaceAll line kwNameC) })
  else if containsSub line kwDescC then
    (true, info)
  else if cur && !line.isEmpty && !(List.isPrefixOf kwModuleC line) then
    (false, { info with description := line })
  else if containsSub line kwRankC then
    match rankSearch line with
    | some w => (cur, { info with rank := pyLower w })
    | none => (cur, info)
  else if containsSub line kwPlatC || containsSub line kwTargC then
    (cur, { info with platform := info.platform ++ platPieces line })
  else
    (cur, info)

/-- The field-extraction part of `get_module_info` (lines 84-127): fold
the parsing loop over the lines of the output text. -/
def parseDetail (module_path output : Str) : ModuleInfo :=
  ((splitOnC '\n' output).foldl detailStep (false, initInfo module_path)).2

/-- `get_module_info(module_type, module_path)`: query
`info <module_type>/<module_path>` through the command runner (modelled
by `oracle`) and extract the fields from its output. -/
def get_module_info (oracle : Str → ExecOutcome) (module_type module_path : Str) :
    ModuleInfo :=
  let full_path := module_type ++ '/' :: module_path
  let output := run_msfconsole_command (oracle ((String.toList ("info ")) ++ full_path))
  parseDetail module_path output

/-! ### `filter_exploits_payloads` and `filter_auxiliary` (lines 130-149) -/

/-- The inclusion test of `filter_exploits_payloads`:
`any(tech in module_lower for tech in TOP_TECHNOLOGIES)`. -/
def techMatch (module : Str) : Bool :=
  TOP_TECHNOLOGIES.any (fun tech => containsSub (pyLower module) tech)

/-- `filter_exploits_payloads(modules)`: keep the modules whose lowercased
form contains a technology keyword; no cap. -/
def filter_exploits_payloads (modules : List Str) : List Str :=
  modules.foldl (fun filtered module =>
    if techMatch module then filtered ++ [module] else filtered) []

/-- The inclusion test of `filter_auxiliary`:
`any(service in module_lower for service in TOP_SERVICES)`. -/
def serviceMatch (module : Str) : Bool :=
  TOP_SERVICES.any (fun service => containsSub (pyLower module) service)

/-- `filter_auxiliary(modules)`: keep the modules whose lowercased form
contains a service keyword, then `filtered[:50] if len(filtered) > 50
else filtered`. -/
def filter_auxiliary (modules : List Str) : List Str :=
  let filtered := modules.foldl (fun filtered module =>
    if serviceMatch module then filtered ++ [module] else filtered) []
  if filtered.length > 50 then filtered.take 50 else filtered

/-! ### `organize_modules_by_category` (lines 152-164) -/

/-- The literal `'other'`, the catch-all category. -/
def otherKey : Str := String.toList ("other")

/-- `organized[category].append(module)` on an insertion-ordered
association list (the `defaultdict(list)`): append to the entry with this
key, or create it at the end. -/
def addToCat (organized : List (Str × List Str)) (category module : Str) :
    List (Str × List Str) :=
  match organized with
  | [] => [(category, [module])]
  | (k, vs) :: rest =>
    if k = category then (k, vs ++ [module]) :: rest
    else (k, vs) :: addToCat rest category module

/-- `organize_modules_by_category(modules)`: group by first path
component; modules without a `/` go under `'other'`. -/
def organize_modules_by_category (modules : List Str) : List (Str × List Str) :=
  modules.foldl (fun organized module =>
    match splitOnC '/' module with
    | p0 :: _ :: _ => addToCat organized p0 module
    | _ => addToCat organized otherKey module) []

/-- The category key assigned to a module by
`organize_modules_by_category`. -/
def catKey (module : Str) : Str :=
  match splitOnC '/' module with
  | p0 :: _ :: _ => p0
  | _ => otherKey

/-- The key sequence built by the first-occurrence order of `catKey` over
the input (the insertion order of the `defaultdict`). -/
def keysIn (ms : List Str) : List Str :=
  ms.foldl (fun ks m => if catKey m ∈ ks then ks else ks ++ [catKey m]) []

/-! ### `enumerate_all_modules` (lines 167-211) -/

/-- The fixed iteration order of item types (line 180). -/
def module_types : List Str :=
  List.map String.toList
    ["encoder", "evasion", "nop", "post", "exploit", "payload", "auxiliary"]

/-- The literal `'exploit'`. -/
def exploitT : Str := String.toList ("exploit")

/-- The literal `'payload'`. -/
def payloadT : Str := String.toList ("payload")

/-- The literal `'auxiliary'`. -/
def auxiliaryT : Str := String.toList ("auxiliary")

/-- The literal `'encoder'`. -/
def encoderT : Str := String.toList ("encoder")

/-- The literal `'evasion'`. -/
def evasionT : Str := String.toList ("evasion")

/-- The literal `'nop'`. -/
def nopT : Str := String.toList ("nop")

/-- The literal `'post'`. -/
def postT : Str := String.toList ("post")

/-- The filter dispatch of lines 192-198: technology policy for
exploit/payload, service policy for auxiliary, identity for the rest. -/
def applyFilter (module_type : Str) (modules : List Str) : List Str :=
  if module_type = exploitT ∨ module_type = payloadT then
    filter_exploits_payloads modules
  else if module_type = auxiliaryT then
    filter_auxiliary modules
  else
    modules

/-- The listing command `f"search type:{module_type}"`. -/
def searchCmd (module_type : Str) : Str :=
  (String.toList ("search type:")) ++ module_type

/-- The filtered identifier sequence produced for one item type (lines
186-198): run the listing query, parse it, apply the type's policy. -/
def typeModules (oracle : Str → ExecOutcome) (module_type : Str) : List Str :=
  applyFilter module_type
    (parse_module_list (run_msfconsole_command (oracle (searchCmd module_type)))
      module_type)

/-- The `result` document of `enumerate_all_modules` (timestamp aside):
`by_type` and `modules` are insertion-ordered association lists. -/
structure Report where
  total_modules : Nat
  by_type : List (Str × Nat)
  modules : List (Str × List (Str × List Str))
deriving DecidableEq

/-- `enumerate_all_modules()`: iterate the seven item types, filter each
type's parsed listing, organize it by category, and accumulate per-type
counts and the total (lines 180-205).  The msfconsole subprocess is
modelled by `oracle`, mapping each command string to its outcome. -/
def enumerate_all_modules (oracle : Str → ExecOutcome) : Report :=
  module_types.foldl (fun result module_type =>
    let modules := typeModules oracle module_type
    { total_modules := result.total_modules + modules.length,
      by_type := result.by_type ++ [(module_type, modules.length)],
      modules := result.modules ++
        [(module_type, organize_modules_by_category modules)] })
    { total_modules := 0, by_type := [], modules := [] }

/-! ### Concrete inputs used by scenarios, counterexamples and witnesses -/

/-- A listing line whose token's only `/` is the one after the item-type
name. -/
def c1Text : Str := String.toList ("exploit/handler  2020-01-01  good  Desc")

/-- The listing text of the C2 scenario. -/
def c2Text : Str :=
  String.toList
    ("Matching Modules\n================\n\n   exploit/windows/smb/ms17_010  2017-03-14  excellent  EternalBlue\n   auxiliary/unrelated/foo        normal     Misc\n")

/-- A three-identifier input for the categorization claims. -/
def c5Demo : List Str :=
  List.map String.toList ["scanner/http/foo", "scanner/ssh/bar", "standalone"]

/-- The `scanner` entry of `organize_modules_by_category c5Demo`. -/
def c5Entry : Str × List Str :=
  (String.toList ("scanner"),
   List.map String.toList ["scanner/http/foo", "scanner/ssh/bar"])

/-- A garbage detail text matching no extraction pattern. -/
def c7Garbage : Str :=
  String.toList ("complete garbage\n12345\n  !!weird?? lines %% here\n")

/-- A detail text whose platform line has a second colon. -/
def c9Text : Str := String.toList ("Platform: Windows:XP\n")

/-- A well-formed platform line. -/
def c9Line : Str := String.toList ("   Platform: Windows, Linux")

/-- A two-identifier input for the placement claim. -/
def c10Demo : List Str := List.map String.toList ["standalone", "scanner/http/foo"]

/-! ## Helper lemmas -/

/-- The append-in-a-loop pattern of both filter functions is `List.filter`. -/
theorem foldl_keep_eq_filter (p : Str → Bool) :
    ∀ (ms acc : List Str),
      ms.foldl (fun filtered module =>
        if p module then filtered ++ [module] else filtered) acc
        = acc ++ ms.filter p
  | [], acc => by simp
  | m :: ms, acc => by
    by_cases h : p m
    · simp [List.foldl, h, foldl_keep_eq_filter p ms (acc ++ [m]),
        List.filter_cons, List.append_assoc]
    · simp [List.foldl, h, foldl_keep_eq_filter p ms acc, List.filter_cons]

/-- `filter_exploits_payloads` is `List.filter techMatch`. -/
theorem filter_exploits_payloads_eq (ms : List Str) :
    filter_exploits_payloads ms = ms.filter techMatch := by
  unfold filter_exploits_payloads
  rw [foldl_keep_eq_filter]
  simp

/-- `filter_auxiliary` is `List.filter serviceMatch` truncated to 50. -/
theorem filter_auxiliary_eq (ms : List Str) :
    filter_auxiliary ms = (ms.filter serviceMatch).take 50 := by
  unfold filter_auxiliary
  rw [foldl_keep_eq_filter]
  simp only [List.nil_append]
  by_cases h : (ms.filter serviceMatch).length > 50
  · rw [if_pos h]
  · rw [if_neg h, List.take_of_length_le (by omega)]

/-- The two arms of the `organize_modules_by_category` loop body agree with
`addToCat` at `catKey`. -/
theorem organize_step (organized : List (Str × List Str)) (module : Str) :
    (match splitOnC '/' module with
      | p0 :: _ :: _ => addToCat organized p0 module
      | _ => addToCat organized otherKey module)
      = addToCat organized (catKey module) module := by
  unfold catKey
  rcases h : splitOnC '/' module with _ | ⟨p0, _ | ⟨p1, rest⟩⟩ <;> simp

/-- `organize_modules_by_category` of `ms ++ [x]` appends `x` to the
mapping for `ms`. -/
theorem organize_append (ms : List Str) (x : Str) :
    organize_modules_by_category (ms ++ [x])
      = addToCat (organize_modules_by_category ms) (catKey x) x := by
  unfold organize_modules_by_category
  rw [List.foldl_append]
  simp only [List.foldl]
  exact organize_step _ x

/-- `addToCat` grows the total number of stored identifiers by one. -/
theorem addToCat_sum (organized : List (Str × List Str)) (k v : Str) :
    ((addToCat organized k v).map (fun p => p.2.length)).sum
      = ((organized.map (fun p => p.2.length)).sum) + 1 := by
  induction organized with
  | nil => simp [addToCat]
  | cons p rest ih =>
    rcases p with ⟨k', vs⟩
    unfold addToCat
    by_cases h : k' = k
    · simp [h]
      omega
    · simp [h, ih]
      omega

/-- `keysIn` of `ms ++ [x]` appends `catKey x` when it is new. -/
theorem keysIn_append (ms : List Str) (x : Str) :
    keysIn (ms ++ [x])
      = if catKey x ∈ keysIn ms then keysIn ms else keysIn ms ++ [catKey x] := by
  unfold keysIn
  rw [List.foldl_append]
  simp [List.foldl]

/-- Every input identifier's category key occurs in `keysIn`. -/
theorem keysIn_cover (ms : List Str) : ∀ m ∈ ms, catKey m ∈ keysIn ms := by
  induction ms using List.reverseRecOn with
  | nil => simp
  | append_singleton ms x ih =>
    intro m hm
    rw [keysIn_append]
    rcases List.mem_append.1 hm with h | h
    · by_cases hx : catKey x ∈ keysIn ms
      · simpa [hx] using ih m h
      · simp only [hx, if_false]
        exact List.mem_append_left _ (ih m h)
    · have he := List.mem_singleton.1 h
      subst he
      by_cases hc : catKey m ∈ keysIn ms <;> simp [hc]

/-- The keys collected by `keysIn` are distinct. -/
theorem keysIn_nodup (ms : List Str) : (keysIn ms).Nodup := by
  induction ms using List.reverseRecOn with
  | nil => simp [keysIn]
  | append_singleton ms x ih =>
    rw [keysIn_append]
    by_cases hx : catKey x ∈ keysIn ms
    · simpa [hx]
    · simp only [hx, if_false]
      exact List.Nodup.append ih (List.nodup_singleton _)
        (by simpa using fun h => hx h)

/-- Updating an existing key: `addToCat` on the canonical table for `ms`
yields the canonical table for `ms ++ [x]` when `catKey x` already has an
entry. -/
theorem addToCat_update (ms : List Str) (x : Str) :
    ∀ (L : List Str), L.Nodup → catKey x ∈ L →
      addToCat (L.map (fun k => (k, ms.filter (fun m => catKey m = k))))
          (catKey x) x
        = L.map (fun k => (k, (ms ++ [x]).filter (fun m => catKey m = k)))
  | [], _, hk => absurd hk (List.not_mem_nil _)
  | k' :: L, hnd, hk => by
    by_cases h : k' = catKey x
    · have hnotin : catKey x ∉ L := h ▸ (List.nodup_cons.1 hnd).1
      have h' : catKey x = k' := h.symm
      have hhead : (ms ++ [x]).filter (fun m => catKey m = k')
          = ms.filter (fun m => catKey m = k') ++ [x] := by
        rw [List.filter_append]
        simp [List.filter, h']
      have htail : L.map (fun k => (k, (ms ++ [x]).filter (fun m => catKey m = k)))
          = L.map (fun k => (k, ms.filter (fun m => catKey m = k))) := by
        refine List.map_congr_left ?_
        intro a ha
        have hne : catKey x ≠ a := fun he => hnotin (he ▸ ha)
        rw [List.filter_append]
        simp [List.filter, hne]
      rw [List.map_cons, List.map_cons, hhead, htail]
      simp [addToCat, h]
    · have hk' : catKey x ∈ L := by
        rcases List.mem_cons.1 hk with he | hL
        · exact absurd he.symm h
        · exact hL
      have hhead : (ms ++ [x]).filter (fun m => catKey m = k')
          = ms.filter (fun m => catKey m = k') := by
        have hne : catKey x ≠ k' := fun he => h he.symm
        rw [List.filter_append]
        simp [List.filter, hne]
      rw [List.map_cons, List.map_cons, hhead]
      show addToCat _ (catKey x) x = _
      rw [show addToCat ((k', ms.filter (fun m => catKey m = k')) ::
            L.map (fun k => (k, ms.filter (fun m => catKey m = k)))) (catKey x) x
          = (k', ms.filter (fun m => catKey m = k')) ::
            addToCat (L.map (fun k => (k, ms.filter (fun m => catKey m = k))))
              (catKey x) x from by simp [addToCat, h]]
      rw [addToCat_update ms x L (List.nodup_cons.1 hnd).2 hk']

/-- Inserting a new key: `addToCat` on the canonical table for `ms`
appends a fresh singleton entry when `catKey x` has no entry and no
identifier of `ms` maps to it. -/
theorem addToCat_new (ms : List Str) (x : Str) :
    ∀ (L : List Str), catKey x ∉ L →
      ms.filter (fun m => catKey m = catKey x) = [] →
      addToCat (L.map (fun k => (k, ms.filter (fun m => catKey m = k))))
          (catKey x) x
        = (L ++ [catKey x]).map
            (fun k => (k, (ms ++ [x]).filter (fun m => catKey m = k)))
  | [], _, hms => by
    simp only [List.map_nil, addToCat, List.nil_append, List.map_cons, List.map_nil]
    rw [List.filter_append, hms]
    simp [List.filter]
  | k' :: L, hk, hms => by
    have h : k' ≠ catKey x := fun he => hk (he ▸ List.mem_cons_self k' L)
    have hhead : (ms ++ [x]).filter (fun m => catKey m = k')
        = ms.filter (fun m => catKey m = k') := by
      have hne : catKey x ≠ k' := fun he => h he.symm
      rw [List.filter_append]
      simp [List.filter, hne]
    rw [List.cons_append, List.map_cons, List.map_cons, hhead]
    rw [show addToCat ((k', ms.filter (fun m => catKey m = k')) ::
          L.map (fun k => (k, ms.filter (fun m => catKey m = k)))) (catKey x) x
        = (k', ms.filter (fun m => catKey m = k')) ::
          addToCat (L.map (fun k => (k, ms.filter (fun m => catKey m = k))))
            (catKey x) x from by simp [addToCat, h]]
    rw [addToCat_new ms x L (fun hL => hk (List.mem_cons_of_mem _ hL)) hms]

/-- `organize_modules_by_category` is the canonical table: one entry per
first-occurrence category key, holding the input's identifiers of that
category in input order. -/
theorem organize_eq (ms : List Str) :
    organize_modules_by_category ms
      = (keysIn ms).map (fun k => (k, ms.filter (fun m => catKey m = k))) := by
  induction ms using List.reverseRecOn with
  | nil => simp [organize_modules_by_category, keysIn]
  | append_singleton ms x ih =>
    rw [organize_append, ih, keysIn_append]
    by_cases hx : catKey x ∈ keysIn ms
    · rw [if_pos hx]
      exact addToCat_update ms x (keysIn ms) (keysIn_nodup ms) hx
    · rw [if_neg hx]
      have hms : ms.filter (fun m => catKey m = catKey x) = [] := by
        rw [List.filter_eq_nil_iff]
        intro m hm he
        have he' : catKey m = catKey x := by simpa using he
        exact hx (he' ▸ keysIn_cover ms m hm)
      exact addToCat_new ms x (keysIn ms) hx hms

/-- A string without the separator splits into the single whole segment. -/
theorem splitOnC_no_sep (sep : Char) :
    ∀ (m : Str), m.contains sep = false → splitOnC sep m = [m]
  | [], _ => rfl
  | c :: rest, h => by
    have h' : ¬ sep = c ∧ sep ∉ rest := by simpa using h
    have hcs : ¬ c = sep := fun he => h'.1 he.symm
    have hr : rest.contains sep = false := by simp [h'.2]
    simp [splitOnC, hcs, splitOnC_no_sep sep rest hr]

/-- Every token accepted by the `parse_module_list` line filter contains
a `/`. -/
theorem parseLineToken_slash (rawLine tok : Str)
    (h : parseLineToken rawLine = some tok) : tok.contains '/' = true := by
  unfold parseLineToken at h
  dsimp only at h
  split_ifs at h <;> try exact Option.noConfusion h
  rcases hsp : pySplitWs (pyStrip rawLine) with _ | ⟨p0, ps⟩ <;> rw [hsp] at h <;>
    dsimp only at h
  · exact Option.noConfusion h
  · split_ifs at h with hc <;> simp_all

/-! ## Detail-parser step and fold lemmas -/

/-- A line not starting with `Name:` leaves the name field unchanged. -/
theorem detailStep_name (st : Bool × ModuleInfo) (l : Str)
    (h : List.isPrefixOf kwNameC (pyStrip l) = false) :
    ((detailStep st l).2).name = st.2.name := by
  unfold detailStep
  dsimp only
  rw [h]
  simp only [Bool.false_eq_true, if_false]
  split_ifs <;> try rfl
  rcases hr : rankSearch (pyStrip l) with _ | w <;> simp [hr]

/-- A line not containing `Rank:` leaves the rank field unchanged. -/
theorem detailStep_rank (st : Bool × ModuleInfo) (l : Str)
    (h : containsSub (pyStrip l) kwRankC = false) :
    ((detailStep st l).2).rank = st.2.rank := by
  unfold detailStep
  dsimp only
  rw [h]
  simp only [Bool.false_eq_true, if_false]
  split_ifs <;> rfl

/-- A line containing neither `Platform:` nor `Available targets:` leaves
the platform list unchanged. -/
theorem detailStep_platform_id (st : Bool × ModuleInfo) (l : Str)
    (h : (containsSub (pyStrip l) kwPlatC || containsSub (pyStrip l) kwTargC)
        = false) :
    ((detailStep st l).2).platform = st.2.platform := by
  unfold detailStep
  dsimp only
  rw [h]
  simp only [Bool.false_eq_true, if_false]
  split_ifs <;> try rfl
  rcases hr : rankSearch (pyStrip l) with _ | w <;> simp [hr]

/-- Outside the description capture state, a line not containing
`Description:` keeps the state out of capture and leaves the description
unchanged. -/
theorem detailStep_desc (info : ModuleInfo) (l : Str)
    (h : containsSub (pyStrip l) kwDescC = false) :
    (detailStep (false, info) l).1 = false ∧
    (detailStep (false, info) l).2.description = info.description := by
  unfold detailStep
  dsimp only
  rw [h]
  simp only [Bool.false_eq_true, if_false, Bool.false_and]
  split_ifs <;> try exact ⟨rfl, rfl⟩
  rcases hr : rankSearch (pyStrip l) with _ | w <;> simp [hr]

/-- Folding over lines none of which starts with `Name:` preserves the
name field. -/
theorem foldl_name : ∀ (L : List Str) (st : Bool × ModuleInfo),
    (∀ l ∈ L, List.isPrefixOf kwNameC (pyStrip l) = false) →
    ((L.foldl detailStep st).2).name = st.2.name
  | [], _, _ => rfl
  | l :: L', st, h => by
    rw [List.foldl_cons,
      foldl_name L' _ (fun x hx => h x (List.mem_cons_of_mem _ hx))]
    exact detailStep_name st l (h l (List.mem_cons_self _ _))

/-- Folding over lines none of which contains `Rank:` preserves the rank
field. -/
theorem foldl_rank : ∀ (L : List Str) (st : Bool × ModuleInfo),
    (∀ l ∈ L, containsSub (pyStrip l) kwRankC = false) →
    ((L.foldl detailStep st).2).rank = st.2.rank
  | [], _, _ => rfl
  | l :: L', st, h => by
    rw [List.foldl_cons,
      foldl_rank L' _ (fun x hx => h x (List.mem_cons_of_mem _ hx))]
    exact detailStep_rank st l (h l (List.mem_cons_self _ _))

/-- Folding over lines with no platform markers preserves the platform
list. -/
theorem foldl_platform : ∀ (L : List Str) (st : Bool × ModuleInfo),
    (∀ l ∈ L,
      (containsSub (pyStrip l) kwPlatC || containsSub (pyStrip l) kwTargC)
        = false) →
    ((L.foldl detailStep st).2).platform = st.2.platform
  | [], _, _ => rfl
  | l :: L', st, h => by
    rw [List.foldl_cons,
      foldl_platform L' _ (fun x hx => h x (List.mem_cons_of_mem _ hx))]
    exact detailStep_platform_id st l (h l (List.mem_cons_self _ _))

/-- Folding over lines none of which contains `Description:` preserves
the description field (starting outside the capture state). -/
theorem foldl_desc : ∀ (L : List Str) (info : ModuleInfo),
    (∀ l ∈ L, containsSub (pyStrip l) kwDescC = false) →
    (L.foldl detailStep (false, info)).1 = false ∧
    (L.foldl detailStep (false, info)).2.description = info.description
  | [], _, _ => ⟨rfl, rfl⟩
  | l :: L', info, h => by
    obtain ⟨h1, h2⟩ := detailStep_desc info l (h l (List.mem_cons_self _ _))
    have hpair : detailStep (false, info) l
        = (false, (detailStep (false, info) l).2) := by
      conv_lhs => rw [← Prod.mk.eta (p := detailStep (false, info) l)]
      rw [h1]
    rw [List.foldl_cons, hpair]
    obtain ⟨h3, h4⟩ := foldl_desc L' ((detailStep (false, info) l).2)
      (fun x hx => h x (List.mem_cons_of_mem _ hx))
    exact ⟨h3, by rw [h4, h2]⟩

/-! ## Claims -/

/-- C1 counterexample: the claim "every identifier returned by
`parse_module_list` contains at least one `/`" is false: on the line
`exploit/handler ...` with item type `exploit`, the returned identifier
`handler` contains no `/` (the stripped prefix held the only one). -/
theorem parse_slash_cex :
    (String.toList ("handler")) ∈ parse_module_list c1Text exploitT ∧
    (String.toList ("handler")).contains '/' = false := by decide

/-- C1 (amended): every identifier returned by `parse_module_list` either
contains a `/` itself, or is the remainder of an accepted first-column
token that began with `<module_type>/`; the accepted token always
contains a `/`, but the prefix-stripping step can remove its only `/`. -/
theorem parse_module_list_slash (output module_type m : Str)
    (hm : m ∈ parse_module_list output module_type) :
    m.contains '/' = true ∨
    ((module_type ++ '/' :: m)
        ∈ (splitOnC '\n' output).filterMap parseLineToken ∧
      (module_type ++ '/' :: m).contains '/' = true) := by
  unfold parse_module_list at hm
  rcases List.mem_map.1 hm with ⟨tok, htok, rfl⟩
  have hsl : tok.contains '/' = true := by
    rcases List.mem_filterMap.1 htok with ⟨l, _, hl⟩
    exact parseLineToken_slash l tok hl
  unfold stripTypeTag
  by_cases hp : List.isPrefixOf (module_type ++ [ '/' ]) tok
  · rw [if_pos hp]
    right
    rcases List.isPrefixOf_iff_prefix.1 hp with ⟨s, hs2⟩
    have hdrop : tok.drop (module_type.length + 1) = s := by
      rw [← hs2]
      have hlen : (module_type ++ [ '/' ]).length = module_type.length + 1 := by
        simp
      rw [← hlen, List.drop_left]
    have htokeq : module_type ++ '/' :: s = tok := by
      rw [← hs2]
      simp
    rw [hdrop, htokeq]
    exact ⟨htok, hsl⟩
  · rw [if_neg hp]
    left
    exact hsl

/-- C1 witness: the amended theorem applied to the `exploit/handler`
listing line. -/
theorem parse_module_list_slash_witness :
    (String.toList ("handler")).contains '/' = true ∨
    ((exploitT ++ '/' :: (String.toList ("handler")))
        ∈ (splitOnC '\n' c1Text).filterMap parseLineToken ∧
      (exploitT ++ '/' :: (String.toList ("handler"))).contains '/' = true) :=
  parse_module_list_slash c1Text exploitT (String.toList ("handler")) (by decide)

/-- C2 counterexample: on the scenario text with item type `exploit`,
`parse_module_list` does not return the one-element sequence
`["windows/smb/ms17_010"]` — the `auxiliary/unrelated/foo` line is not
filtered out. -/
theorem parse_scenario_cex :
    parse_module_list c2Text exploitT
      ≠ [String.toList ("windows/smb/ms17_010")] := by decide

/-- C2 (amended): on the scenario text with item type `exploit`,
`parse_module_list` returns exactly
`["windows/smb/ms17_010", "auxiliary/unrelated/foo"]`: the first line's
leading type prefix is stripped, and the type-mismatched second line is
kept verbatim (there is no type-mismatch filter in the parser). -/
theorem parse_scenario :
    parse_module_list c2Text exploitT
      = [String.toList ("windows/smb/ms17_010"),
         String.toList ("auxiliary/unrelated/foo")] := by decide

/-- C3: in the assembled report, each item type's `by_type` count is the
length of that type's filtered identifier sequence (the policy is applied
to the parsed listing before counting), and `total_modules` is the sum of
the per-type counts over the seven item types. -/
theorem report_counts (oracle : Str → ExecOutcome) :
    (enumerate_all_modules oracle).by_type
      = module_types.map (fun t =>
          (t, (applyFilter t
            (parse_module_list (run_msfconsole_command (oracle (searchCmd t)))
              t)).length)) ∧
    (enumerate_all_modules oracle).total_modules
      = ((enumerate_all_modules oracle).by_type.map Prod.snd).sum := by
  constructor
  · rfl
  · simp [enumerate_all_modules, module_types, List.sum_cons]
    omega

/-- C4: the service policy keeps, in input order, exactly the identifiers
whose lowercased form contains a service keyword, truncated to the first
50; its output length is exactly `min 50 (number of matches)`, hence
always at most 50. -/
theorem filter_auxiliary_spec (modules : List Str) :
    filter_auxiliary modules = (modules.filter serviceMatch).take 50 ∧
    (filter_auxiliary modules).length
      = min 50 (modules.filter serviceMatch).length := by
  refine ⟨filter_auxiliary_eq modules, ?_⟩
  rw [filter_auxiliary_eq modules, List.length_take]

/-- C5: categorization is lossless: the per-category list lengths sum to
the input length, and every entry of the mapping holds exactly the input
identifiers of its category, in input order (so each identifier appears
in exactly one category's list). -/
theorem organize_lossless (modules : List Str) :
    ((organize_modules_by_category modules).map (fun p => p.2.length)).sum
      = modules.length ∧
    ∀ p ∈ organize_modules_by_category modules,
      p.2 = modules.filter (fun m => catKey m = p.1) := by
  constructor
  · induction modules using List.reverseRecOn with
    | nil => simp [organize_modules_by_category]
    | append_singleton ms x ih =>
      rw [organize_append, addToCat_sum, ih]
      simp
  · intro p hp
    rw [organize_eq] at hp
    rcases List.mem_map.1 hp with ⟨k, hk, rfl⟩
    rfl

/-- C5 witness: the lossless theorem applied to a concrete input and to
its `scanner` entry. -/
theorem organize_lossless_witness :
    ((organize_modules_by_category c5Demo).map (fun p => p.2.length)).sum
      = c5Demo.length ∧
    c5Entry.2 = c5Demo.filter (fun m => catKey m = c5Entry.1) :=
  ⟨(organize_lossless c5Demo).1,
   (organize_lossless c5Demo).2 c5Entry (by decide)⟩

/-- C6: the technology policy is exactly the keyword filter with no
length cap and preserves input order (its output is a sublist of the
input), and the dispatched policy for the four pass-through item types is
the identity. -/
theorem policies_no_truncation (modules : List Str) :
    filter_exploits_payloads modules = modules.filter techMatch ∧
    (filter_exploits_payloads modules).Sublist modules ∧
    applyFilter encoderT modules = modules ∧
    applyFilter evasionT modules = modules ∧
    applyFilter nopT modules = modules ∧
    applyFilter postT modules = modules := by
  refine ⟨filter_exploits_payloads_eq modules, ?_, ?_, ?_, ?_, ?_⟩
  · rw [filter_exploits_payloads_eq modules]
    exact List.filter_sublist modules
  all_goals
    unfold applyFilter
    rw [if_neg (by decide), if_neg (by decide)]

/-- C7: the field extraction of `get_module_info` is total by
construction, and every field whose marker occurs on no line keeps its
empty default: no `Name:` line means empty name, no `Description:` line
means empty description, no `Rank:` line means empty rank, and no
`Platform:`/`Available targets:` line means an empty platform list. -/
theorem detail_defaults (module_path output : Str) :
    ((∀ l ∈ splitOnC '\n' output,
        List.isPrefixOf kwNameC (pyStrip l) = false) →
      (parseDetail module_path output).name = []) ∧
    ((∀ l ∈ splitOnC '\n' output, containsSub (pyStrip l) kwDescC = false) →
      (parseDetail module_path output).description = []) ∧
    ((∀ l ∈ splitOnC '\n' output, containsSub (pyStrip l) kwRankC = false) →
      (parseDetail module_path output).rank = []) ∧
    ((∀ l ∈ splitOnC '\n' output,
        (containsSub (pyStrip l) kwPlatC || containsSub (pyStrip l) kwTargC)
          = false) →
      (parseDetail module_path output).platform = []) := by
  refine ⟨fun h => ?_, fun h => ?_, fun h => ?_, fun h => ?_⟩
  · exact foldl_name (splitOnC '\n' output) (false, initInfo module_path) h
  · exact (foldl_desc (splitOnC '\n' output) (initInfo module_path) h).2
  · exact foldl_rank (splitOnC '\n' output) (false, initInfo module_path) h
  · exact foldl_platform (splitOnC '\n' output) (false, initInfo module_path) h

/-- C7 witness: on a garbage detail text, all four extracted fields are
their empty defaults. -/
theorem detail_defaults_witness :
    (parseDetail [] c7Garbage).name = [] ∧
    (parseDetail [] c7Garbage).description = [] ∧
    (parseDetail [] c7Garbage).rank = [] ∧
    (parseDetail [] c7Garbage).platform = [] :=
  ⟨(detail_defaults [] c7Garbage).1 (by decide),
   (detail_defaults [] c7Garbage).2.1 (by decide),
   (detail_defaults [] c7Garbage).2.2.1 (by decide),
   (detail_defaults [] c7Garbage).2.2.2 (by decide)⟩

/-- C8: `run_msfconsole_command` never raises to its caller: it returns
the empty string on timeout of the external process and on any other
execution failure, and the captured standard output on success. -/
theorem run_msfconsole_total :
    run_msfconsole_command ExecOutcome.timeout = [] ∧
    run_msfconsole_command ExecOutcome.failure = [] ∧
    ∀ stdout, run_msfconsole_command (ExecOutcome.success stdout) = stdout :=
  ⟨rfl, rfl, fun _ => rfl⟩

/-- C9 counterexample: on the line `Platform: Windows:XP` the parser
appends `Windows` — the segment between the first and second colon — not
`Windows:XP`, everything after the first colon, as the claim states. -/
theorem platform_cex :
    (parseDetail [] c9Text).platform = [String.toList ("Windows")] ∧
    (parseDetail [] c9Text).platform ≠ [String.toList ("Windows:XP")] := by
  decide

/-- C9 (amended): a line with a platform marker that reaches the platform
branch (it does not start with `Name:`, contains no `Description:`, is
not captured as a description, and contains no `Rank:`) appends to the
platform list the pieces of the segment between the line's first and
second `:` — split on commas, trimmed, empties dropped; and every parser
step only ever appends to the platform list, never overwriting it. -/
theorem platform_extraction (cur : Bool) (info : ModuleInfo) (rawLine : Str)
    (hplat : (containsSub (pyStrip rawLine) kwPlatC
        || containsSub (pyStrip rawLine) kwTargC) = true)
    (hname : List.isPrefixOf kwNameC (pyStrip rawLine) = false)
    (hdesc : containsSub (pyStrip rawLine) kwDescC = false)
    (hcap : (cur && !(pyStrip rawLine).isEmpty
        && !(List.isPrefixOf kwModuleC (pyStrip rawLine))) = false)
    (hrank : containsSub (pyStrip rawLine) kwRankC = false) :
    (detailStep (cur, info) rawLine).2.platform
        = info.platform ++ platPieces (pyStrip rawLine) ∧
    ∀ (st : Bool × ModuleInfo) (l : Str), ∃ ext,
      (detailStep st l).2.platform = st.2.platform ++ ext := by
  constructor
  · unfold detailStep
    dsimp only
    rw [hname, hdesc, hcap, hrank, hplat]
    simp
  · intro st l
    unfold detailStep
    dsimp only
    split_ifs
    · exact ⟨[], (List.append_nil _).symm⟩
    · exact ⟨[], (List.append_nil _).symm⟩
    · exact ⟨[], (List.append_nil _).symm⟩
    · refine ⟨[], ?_⟩
      rcases hr : rankSearch (pyStrip l) with _ | w <;> simp
    · exact ⟨platPieces (pyStrip l), rfl⟩
    · exact ⟨[], (List.append_nil _).symm⟩

/-- C9 witness: the amended theorem applied to the line
`   Platform: Windows, Linux` from the initial state. -/
theorem platform_extraction_witness :
    (detailStep (false, initInfo []) c9Line).2.platform
      = (initInfo []).platform ++ platPieces (pyStrip c9Line) :=
  (platform_extraction false (initInfo []) c9Line (by decide) (by decide)
    (by decide) (by decide) (by decide)).1

/-- C10: every identifier without a `/` lands in the literal `other`
category's list, and every identifier whose split has at least two
segments lands, as the full identifier, in the list keyed by its first
segment. -/
theorem organize_placement (modules : List Str) :
    ∀ m ∈ modules,
      (m.contains '/' = false →
        ∃ vs, (otherKey, vs) ∈ organize_modules_by_category modules ∧ m ∈ vs) ∧
      (∀ p0 p1 rest, splitOnC '/' m = p0 :: p1 :: rest →
        ∃ vs, (p0, vs) ∈ organize_modules_by_category modules ∧ m ∈ vs) := by
  intro m hm
  have hentry : (catKey m, modules.filter (fun n => catKey n = catKey m))
      ∈ organize_modules_by_category modules := by
    rw [organize_eq]
    exact List.mem_map.2 ⟨catKey m, keysIn_cover modules m hm, rfl⟩
  have hmem : m ∈ modules.filter (fun n => catKey n = catKey m) :=
    List.mem_filter.2 ⟨hm, by simp⟩
  constructor
  · intro hns
    have hk : catKey m = otherKey := by
      simp [catKey, splitOnC_no_sep '/' m hns]
    exact ⟨modules.filter (fun n => catKey n = catKey m), hk ▸ hentry, hmem⟩
  · intro p0 p1 rest hsplit
    have hk : catKey m = p0 := by
      simp [catKey, hsplit]
    exact ⟨modules.filter (fun n => catKey n = catKey m), hk ▸ hentry, hmem⟩

/-- C10 witness: the placement theorem applied to `standalone` (no slash)
and to `scanner/http/foo` (first segment `scanner`). -/
theorem organize_placement_witness :
    (∃ vs, (otherKey, vs) ∈ organize_modules_by_category c10Demo ∧
      (String.toList ("standalone")) ∈ vs) ∧
    (∃ vs, (String.toList ("scanner"), vs) ∈ organize_modules_by_category c10Demo ∧
      (String.toList ("scanner/http/foo")) ∈ vs) :=
  ⟨(organize_placement c10Demo (String.toList ("standalone")) (by decide)).1
     (by decide),
   (organize_placement c10Demo (String.toList ("scanner/http/foo")) (by decide)).2
     (String.toList ("scanner")) (String.toList ("http"))
     [String.toList ("foo")] (by decide)⟩
